import Mathlib

/-!
Verification of the analysis core of a jsonnet language server
(`pkg/lsp/lsp.go`): import resolution with a per-instance cache, the
single-slot evaluation-engine (VM) cache, parse recovery, scope/variable
resolution, diagnostics collection, and position conversion.

File paths are modelled as a list of path segments together with an
absoluteness flag; the `path/filepath` helpers used by the source
(`Join`, `Rel`, `Dir`, `IsAbs`, `Clean`) are modelled on that
representation for cleaned paths. URIs in the source are file URIs that
round-trip through `uri.File`/`Filename`, so a URI is modelled as the
(absolute) path itself.
-/

namespace JsonnetLsp

/-- A file path: an absoluteness flag and the list of path segments.
Models a cleaned Go `path/filepath` path string. -/
structure FPath where
  abs : Bool
  segs : List String
deriving DecidableEq

/-- One step of path cleaning, as in Go `filepath.Clean`: drop empty and
dot segments, resolve a `..` against a preceding real segment, keep
leading `..`s on relative paths, and drop `..` at the root of an
absolute path. -/
def cleanStep (isAbs : Bool) (acc : List String) (s : String) : List String :=
  if s = "" ∨ s = "." then acc
  else if s = ".." then
    if acc ≠ [] ∧ acc.getLast? ≠ some ".." then acc.dropLast
    else if isAbs then acc else acc ++ [".."]
  else acc ++ [s]

/-- Clean a segment list, as Go `filepath.Clean` does on path strings. -/
def cleanSegs (isAbs : Bool) (l : List String) : List String :=
  l.foldl (cleanStep isAbs) []

/-- Go `filepath.Join(base, parts...)`: concatenate all elements and
clean once. Later elements contribute their segments regardless of
their own absoluteness flag, as Go joins the raw strings. -/
def joinMany (base : FPath) (parts : List FPath) : FPath :=
  ⟨base.abs, cleanSegs base.abs (parts.foldl (fun acc p => acc ++ p.segs) base.segs)⟩

/-- Drop the longest common prefix of two segment lists, returning the
two remainders. -/
def dropCommon : List String → List String → List String × List String
  | a :: as, b :: bs => if a = b then dropCommon as bs else (a :: as, b :: bs)
  | as, bs => (as, bs)

/-- Go `filepath.Rel(base, target)` on cleaned paths: fails when one
path is absolute and the other is not; otherwise climbs out of the
uncommon part of `base` with `..` segments and descends into the
uncommon part of `target`. -/
def FPath.rel (base target : FPath) : Option FPath :=
  if base.abs = target.abs then
    let p := dropCommon (cleanSegs base.abs base.segs) (cleanSegs target.abs target.segs)
    some ⟨false, p.1.map (fun _ => "..") ++ p.2⟩
  else none

/-- Go `filepath.Dir`: the path with its final segment removed. -/
def FPath.dir (p : FPath) : FPath :=
  ⟨p.abs, p.segs.dropLast⟩

/-- The server state needed by import resolution: workspace root URI,
configured search paths, the overlay (latest parsed in-memory contents
per URI, modelling `overlay.Parsed(uri).Contents`), and the workspace
file system rooted at the workspace root (modelling `fs.ReadFile` on
`s.rootFS`, which answers only valid relative paths). -/
structure Server where
  rootURI : FPath
  searchPaths : List FPath
  overlay : FPath → Option String
  rootFS : FPath → Option String

/-- `Server.readURI`: prefer the overlay's in-memory contents for the
URI; otherwise relativize the URI to the workspace root and read from
the root file system. `none` models the Go error return; a relative
path containing `..` is not a valid `io/fs` name, so `fs.ReadFile`
fails on it. -/
def Server.readURI (s : Server) (u : FPath) : Option String :=
  match s.overlay u with
  | some c => some c
  | none =>
    match FPath.rel s.rootURI u with
    | none => none
    | some p => if ".." ∈ p.segs then none else s.rootFS p

/-- The absolute-path rewrite at the top of `Server.readPath`: an
absolute import path is relativized to the workspace root (the error
from `filepath.Rel` is discarded, leaving an empty path, exactly as the
source ignores it). -/
def Server.absToRel (s : Server) (path : FPath) : FPath :=
  if path.abs then (FPath.rel s.rootURI path).getD ⟨false, []⟩ else path

/-- The ordered candidate list built by `Server.readPath`: the path
relative to the workspace root, then relative to the importing file's
directory (itself relativized to the root), then relative to each
configured search directory in configuration order. -/
def Server.importCandidates (s : Server) (path1 fromPath : FPath) : List FPath :=
  joinMany s.rootURI [path1] :: joinMany s.rootURI [fromPath, path1] ::
    s.searchPaths.map fun sp => joinMany s.rootURI [sp, path1]

/-- The candidate loop at the bottom of `Server.readPath`: try each
candidate in order with `readURI` and return the first that reads
successfully, together with its URI. -/
def Server.firstRead (s : Server) : List FPath → Option (String × FPath)
  | [] => none
  | c :: rest =>
    match s.readURI c with
    | some data => some (data, c)
    | none => s.firstRead rest

/-- `Server.readPath`: resolve an import path `path` imported from file
`fr`. Rewrites an absolute path relative to the root, relativizes
the importer's directory to the root (failure of that is an error), then
tries the candidates in order. `none` models the Go error returns. -/
def Server.readPath (s : Server) (path fr : FPath) : Option (String × FPath) :=
  match FPath.rel s.rootURI (FPath.dir fr) with
  | none => none
  | some fromPath => s.firstRead (s.importCandidates (s.absToRel path) fromPath)

/-- Concrete server for the spec scenario: workspace root `/root`, one
search path `vendor`, empty overlay, and only `/root/sub/lib.jsonnet`
on disk. -/
def serverScenario : Server where
  rootURI := ⟨true, ["root"]⟩
  searchPaths := [⟨false, ["vendor"]⟩]
  overlay := fun _ => none
  rootFS := fun p => if p = ⟨false, ["sub", "lib.jsonnet"]⟩ then some "sub-lib" else none

/-- Concrete server with the same filename present at the workspace
root, at the importer's directory (two levels deep), and in the
configured search path, all with distinct contents. -/
def serverShadow : Server where
  rootURI := ⟨true, ["root"]⟩
  searchPaths := [⟨false, ["vendor"]⟩]
  overlay := fun _ => none
  rootFS := fun p =>
    if p = ⟨false, ["lib.jsonnet"]⟩ then some "at-root"
    else if p = ⟨false, ["a", "b", "lib.jsonnet"]⟩ then some "at-dir"
    else if p = ⟨false, ["vendor", "lib.jsonnet"]⟩ then some "at-vendor"
    else none

/-- Like `serverShadow` but with the workspace-root copy absent. -/
def serverShadowNoRoot : Server where
  rootURI := ⟨true, ["root"]⟩
  searchPaths := [⟨false, ["vendor"]⟩]
  overlay := fun _ => none
  rootFS := fun p =>
    if p = ⟨false, ["a", "b", "lib.jsonnet"]⟩ then some "at-dir"
    else if p = ⟨false, ["vendor", "lib.jsonnet"]⟩ then some "at-vendor"
    else none

/-- A positive or negative entry in the importer's per-instance cache
(`foundCacheItem`): either the found contents together with the
resolved URI, or the stored error of a failed resolution. -/
inductive FoundCacheItem where
  | found (contents : String) (uri : FPath)
  | notFound
deriving DecidableEq

/-- Lookup in the importer's per-instance cache, keyed by the
literal import path. Insertion prepends and lookup takes the most recent entry,
matching Go map update semantics for these keys. -/
def lookupCache : List (FPath × FoundCacheItem) → FPath → Option FoundCacheItem
  | [], _ => none
  | (k, v) :: rest, p => if k = p then some v else lookupCache rest p

/-- One call of the importer closure returned by `Server.newImporter`:
check the per-instance cache first and answer hits immediately; on a
miss probe `readPath` and store a positive entry on success or a
negative entry on failure, keyed by the literal import path. The last
component instruments the call with the number of `readPath` probes it
performed (1 on a cache miss, 0 on a hit). -/
def Server.importStep (s : Server) (fr : FPath) (cache : List (FPath × FoundCacheItem))
    (p : FPath) : Option (String × FPath) × List (FPath × FoundCacheItem) × Nat :=
  match lookupCache cache p with
  | some (.found c u) => (some (c, u), cache, 0)
  | some .notFound => (none, cache, 0)
  | none =>
    match s.readPath p fr with
    | none => (none, (p, .notFound) :: cache, 1)
    | some (d, u) => (some (d, u), (p, .found d u) :: cache, 1)

/-- The single VM slot entry (`vmCache`): the URI the VM was created
from and the import-resolver cache of the importer installed on it. -/
structure VMCache where
  from_ : FPath
  cache : List (FPath × FoundCacheItem)
deriving DecidableEq

/-- `Server.getVM` acting on the single VM slot: keep the cached VM
when its origin URI equals the requested one; otherwise replace the
slot with a fresh VM bound to the requested URI whose importer cache is
empty. Returns the VM handed to the caller together with the new slot
state. -/
def getVM (slot : Option VMCache) (u : FPath) : VMCache × Option VMCache :=
  match slot with
  | some c => if u = c.from_ then (c, some c) else (⟨u, []⟩, some ⟨u, []⟩)
  | none => (⟨u, []⟩, some ⟨u, []⟩)

/-- A text edit as the recovery heuristic consumes it
(`gotextdiff.TextEdit` restricted to the fields the source reads): the
end point of the edited span, with 1-based line and column, and the
inserted text. -/
structure TextEdit where
  endLine : Int
  endCol : Int
  newText : String
deriving DecidableEq

/-- The insertion point computed by `tryRecoverAST`: the end of the
last edit's span advanced by the length of its inserted text. -/
def recoverInsertion (le : TextEdit) : Int × Int :=
  (le.endLine, le.endCol + (le.newText.length : Int))

/-- Split a character list into its newline-separated lines. -/
def splitLines : List Char → List (List Char)
  | [] => [[]]
  | c :: rest =>
    if c = '\n' then [] :: splitLines rest
    else
      match splitLines rest with
      | [] => [[c]]
      | l :: ls => (c :: l) :: ls

/-- Convert a 1-based (line, column) point in a string to a character
offset; fails when the point lies outside the text. Models the offset
conversion of the external text-edit library, whose failure surfaces as
a panic that `tryRecoverAST`'s deferred recover eats. -/
def lineColToOffset (s : String) (line col : Int) : Option Nat :=
  if line < 1 ∨ col < 1 then none
  else
    match (splitLines s.toList).get? (line - 1).toNat with
    | none => none
    | some lstr =>
      if (col - 1).toNat ≤ lstr.length then
        some ((((splitLines s.toList).take (line - 1).toNat).foldl
          (fun a l => a + l.length + 1) 0) + (col - 1).toNat)
      else none

/-- Apply a single insertion edit at a 1-based point, modelling
`gotextdiff.ApplyEdits` with one empty-span edit; `none` models the
panic eaten by `tryRecoverAST`. -/
def applyInsert (s : String) (pt : Int × Int) (ins : String) : Option String :=
  match lineColToOffset s pt.1 pt.2 with
  | none => none
  | some off => some (String.mk (s.toList.take off ++ ins.toList ++ s.toList.drop off))

/-- The parse outcome stored per document (`ParseResult`): a
best-effort tree root and the original parse error, either possibly
absent. -/
structure ParseResult (Tree E : Type) where
  root : Option Tree
  err : Option E
deriving DecidableEq

/-- `tryRecoverAST`: insert a statement terminator immediately after
the end of the last edit's inserted text and reparse; if that yields no
tree, insert a field separator at the same point and reparse; a panic
while applying an edit aborts recovery. The parser is a parameter
(`jsonnet.SnippetToAST` is external, per the spec a black-box returning
a possible tree and a possible located error); recovery discards the
errors of its own attempts. The second component instruments the call
with the strings fed to the parser during recovery. -/
def tryRecoverAST {Tree E : Type} (parse : String → Option Tree × Option E)
    (contents : String) (lastEdit : TextEdit) : Option Tree × List String :=
  match applyInsert contents (recoverInsertion lastEdit) ";" with
  | none => (none, [])
  | some withSemicol =>
    match (parse withSemicol).1 with
    | some recovered => (some recovered, [withSemicol])
    | none =>
      match applyInsert contents (recoverInsertion lastEdit) "," with
      | none => (none, [withSemicol])
      | some withComma => ((parse withComma).1, [withSemicol, withComma])

/-- The parse function installed by `parseJsonnetFn`: parse the full
text; when that yields no tree and a last edit exists, attempt AST
recovery; the stored error is always the direct parse's error, and
success is reported exactly when a tree is present. The last component
instruments the call with every string fed to the parser. -/
def parseJsonnetFn {Tree E : Type} (parse : String → Option Tree × Option E)
    (contents : String) (lastEdit : Option TextEdit) :
    ParseResult Tree E × Bool × List String :=
  let d := parse contents
  match d.1, lastEdit with
  | none, some le =>
    let r := tryRecoverAST parse contents le
    (⟨r.1, d.2⟩, r.1.isSome, contents :: r.2)
  | r, _ => (⟨r, d.2⟩, r.isSome, [contents])

/-- A toy parser for witnesses: accepts exactly the strings ending in a
semicolon, yielding the string's length as the tree; anything else
fails with error 0. -/
def toyParse : String → Option Nat × Option Nat := fun s =>
  if s.toList.getLast? = some ';' then (some s.toList.length, none) else (none, some 0)

/-- A syntax-tree node as scope resolution observes it: an identity,
the source file name of its location, and the names the node
introduces into scope. Models `ast.Node` restricted to what `Vars`
consumes, with reference identity modelled by `id`. -/
structure SNode where
  id : Nat
  fileName : String
  introduced : List String
deriving DecidableEq

/-- A visible-names map: name to binding node. -/
abbrev VarMap : Type := String → Option SNode

/-- Modelled from the spec: `analysis.StackVars` (package
`pkg/analysis` is not under `src/`) folds the ancestor stack
outer-to-inner, adding each node's introduced names to the map, with a
later (inner) entry overwriting an earlier (outer) entry of the same
name. -/
def StackVars (stk : List SNode) : VarMap :=
  stk.foldl (fun m n x => if x ∈ n.introduced then some n else m x) (fun _ => none)

/-- Association-list lookup with string keys, modelling a Go map. -/
def lookupStr {A : Type} : List (String × A) → String → Option A
  | [], _ => none
  | (k, v) :: rest, s => if k = s then some v else lookupStr rest s

/-- Association-list lookup with natural keys, modelling a Go map
keyed by node identity. -/
def lookupNat {A : Type} : List (Nat × A) → Nat → Option A
  | [], _ => none
  | (k, v) :: rest, n => if k = n then some v else lookupNat rest n

/-- The scope-resolver session state (`valueResolver`) as `Vars` and
`Import` use it: the filename-to-root map and the per-node
ancestor-stack cache. -/
structure ValueResolver where
  roots : List (String × SNode)
  stackCache : List (Nat × List SNode)

/-- `valueResolver.Vars`: look up the root registered for the node's
source file name — absence is the panic branch, modelled as `none`;
with a root present, use the node's cached ancestor stack when it is
nonempty, otherwise recompute the stack from that root
(`analysis.StackAtNode`, not under `src/`, passed as a parameter) and
fold it with `StackVars`. -/
def ValueResolver.Vars (stackAtNode : SNode → SNode → List SNode) (r : ValueResolver)
    (fr : SNode) : Option VarMap :=
  match lookupStr r.roots fr.fileName with
  | none => none
  | some root =>
    match lookupNat r.stackCache fr.id with
    | some stk =>
      if stk.length > 0 then some (StackVars stk)
      else some (StackVars (stackAtNode root fr))
    | none => some (StackVars (stackAtNode root fr))

/-- `valueResolver.Import`: resolve a path through the VM's
`ImportAST` (external, passed as a parameter); on success record the
returned root in the session's filename-to-root map under the root's
file name and return it; on failure return nothing and leave the
session unchanged. -/
def ValueResolver.importRoot (importAST : FPath → Option SNode) (r : ValueResolver)
    (p : FPath) : Option SNode × ValueResolver :=
  match importAST p with
  | none => (none, r)
  | some root => (some root, { r with roots := (root.fileName, root) :: r.roots })

/-- A source location (`ast.Location`): 1-based line and column, Go
ints. -/
structure Location where
  line : Int
  column : Int
deriving DecidableEq

/-- A source range (`ast.LocationRange`): file name plus begin and end
locations. -/
structure LocationRange where
  fileName : String
  Begin : Location
  End : Location
deriving DecidableEq

/-- A 0-based editor position (`protocol.Position`); the fields are Go
`uint32`, modelled as naturals with the 32-bit range imposed where a
statement demands it. -/
structure Position where
  line : Nat
  character : Nat
deriving DecidableEq

/-- An editor range (`protocol.Range`). -/
structure ProtoRange where
  start : Position
  endPos : Position
deriving DecidableEq

/-- `posToProto`: convert a 1-based source location to a 0-based
editor position, decrementing line and column only when they are
positive, then converting the Go ints to `uint32` (Go conversion
truncates, i.e. reduces modulo 2^32). -/
def posToProto (p : Location) : Position :=
  let line := if p.line > 0 then p.line - 1 else p.line
  let col := if p.column > 0 then p.column - 1 else p.column
  ⟨(line % 4294967296).toNat, (col % 4294967296).toNat⟩

/-- `protoToPos`: convert a 0-based editor position to a 1-based
source location. -/
def protoToPos (p : Position) : Location :=
  ⟨(p.line : Int) + 1, (p.character : Int) + 1⟩

/-- `rangeToProto`: convert a source range to an editor range. -/
def rangeToProto (r : LocationRange) : ProtoRange :=
  ⟨posToProto r.Begin, posToProto r.End⟩

/-- Diagnostic severity `protocol.DiagnosticSeverityError`. -/
def severityError : Nat := 1

/-- Diagnostic severity `protocol.DiagnosticSeverityWarning`. -/
def severityWarning : Nat := 2

/-- An editor diagnostic, restricted to the fields the source
populates. -/
structure Diagnostic where
  severity : Nat
  range : ProtoRange
  message : String
  source : String
deriving DecidableEq

/-- The error shapes the collector distinguishes (the type switch in
`ErrCollector.Collect`): a located static error, a runtime error with
its stack trace (the external evaluator reports a non-empty ordered
location stack, modelled as head and rest), or an error of any other
shape. -/
inductive LintError where
  | staticErr (loc : LocationRange) (msg : String)
  | runtimeErr (stackHead : LocationRange) (stackRest : List LocationRange) (msg : String)
  | otherErr (msg : String)
deriving DecidableEq

/-- The diagnostics collector (`ErrCollector`): the file name of the
document under update and the diagnostics collected so far. -/
structure ErrCollector where
  uri : String
  diags : List Diagnostic
deriving DecidableEq

/-- `ErrCollector.Collect`: a located static error produces a
diagnostic at the given severity only when its file name equals the
collector's; a runtime error always produces a diagnostic at error
severity placed at the first location of its stack trace; any other
error shape is only logged. -/
def ErrCollector.collect (e : ErrCollector) (err : LintError)
    (severity : Nat) : ErrCollector :=
  match err with
  | .staticErr loc msg =>
    if loc.fileName = e.uri then
      { e with diags := e.diags ++ [⟨severity, rangeToProto loc, msg, "jsonnet"⟩] }
    else e
  | .runtimeErr stackHead _ msg =>
    { e with diags := e.diags ++ [⟨severityError, rangeToProto stackHead, msg, "jsonnet"⟩] }
  | .otherErr _ => e

/-- `ErrCollector.Format`, as the linter invokes it on each error it
reports: collect at warning severity. -/
def ErrCollector.format (e : ErrCollector) (err : LintError) : ErrCollector :=
  e.collect err severityWarning

/-- Modelled from the spec: a document snapshot held by the overlay
(package `pkg/overlay` is not under `src/`) — a version, the text, and
the data attached by the parse function (`none` models `Data` not
holding a `*ParseResult`). -/
structure Snapshot (Tree : Type) where
  version : Nat
  contents : String
  data : Option (ParseResult Tree LintError)

/-- Modelled from the spec: the `overlay.UpdateResult` handed to the
update callback — the current snapshot and the latest successfully
parsed snapshot, either possibly absent. -/
structure UpdateResult (Tree : Type) where
  current : Option (Snapshot Tree)
  parsed : Option (Snapshot Tree)

/-- `ParseResult.StaticErr`: the stored parse error when it is a
located static error (the Go interface cast), a nil receiver giving
nil. -/
def staticErrOf {Tree : Type} : Option (ParseResult Tree LintError) → Option LintError
  | none => none
  | some pr =>
    match pr.err with
    | some (.staticErr loc msg) => some (.staticErr loc msg)
    | _ => none

/-- The update callback built by `processFileUpdateFn`: with no current
snapshot nothing happens; otherwise, when the parse stored a static
error, collect it at error severity and skip linting; when there is no
static parse error and the latest parsed snapshot's version equals the
current version, run the linter on the parsed contents (the external
linter, here a parameter yielding the errors it reports, routes each
through `Format`, which collects at warning severity); finally publish
the collected diagnostics for the document at the current version.
Returns the publication, `none` when none happens. -/
def processFileUpdate {Tree : Type} (uriName : String) (lint : String → List LintError)
    (ur : UpdateResult Tree) : Option (String × Nat × List Diagnostic) :=
  match ur.current with
  | none => none
  | some cur =>
    let ec : ErrCollector := ⟨uriName, []⟩
    let ec :=
      match staticErrOf cur.data with
      | some se => ec.collect se severityError
      | none =>
        match ur.parsed with
        | some parsedSnap =>
          if cur.version = parsedSnap.version then
            (lint parsedSnap.contents).foldl (fun acc e => acc.format e) ec
          else ec
        | none => ec
    some (uriName, cur.version, ec.diags)

theorem firstRead_cons_some (s : Server) (c : FPath) (rest : List FPath) (d : String)
    (h : s.readURI c = some d) : s.firstRead (c :: rest) = some (d, c) := by
  simp [Server.firstRead, h]

theorem firstRead_cons_none (s : Server) (c : FPath) (rest : List FPath)
    (h : s.readURI c = none) : s.firstRead (c :: rest) = s.firstRead rest := by
  simp [Server.firstRead, h]

theorem firstRead_append_none (s : Server) (l1 l2 : List FPath)
    (h : ∀ c ∈ l1, s.readURI c = none) :
    s.firstRead (l1 ++ l2) = s.firstRead l2 := by
  induction l1 with
  | nil => rfl
  | cons c rest ih =>
    rw [List.cons_append, firstRead_cons_none s c _ (h c (List.mem_cons_self c rest))]
    exact ih fun x hx => h x (List.mem_cons_of_mem c hx)

theorem firstRead_none (s : Server) (l : List FPath)
    (h : ∀ c ∈ l, s.readURI c = none) : s.firstRead l = none := by
  have := firstRead_append_none s l [] h
  simpa using this

theorem rel_isSome_of_abs (base target : FPath) (hb : base.abs = true)
    (ht : target.abs = true) : ∃ p, FPath.rel base target = some p := by
  unfold FPath.rel
  rw [hb, ht]
  exact ⟨_, rfl⟩

/-- C1: on an import-cache miss for path `path` imported from file `fr`,
an absolute path is first rewritten relative to the workspace root; the
candidates tried are, in order, the path relative to the workspace
root, relative to the importing file's directory (relativized to the
root), and relative to each configured search directory in
configuration order; each probe prefers the overlay's in-memory content
for the candidate URI over the file system; the first candidate that
reads successfully is returned with its resolved URI, and if none
resolves an error is returned. -/
theorem readPath_candidate_order (s : Server) (path fr : FPath)
    (hroot : s.rootURI.abs = true) (hfr : fr.abs = true) :
    ∃ fromPath, FPath.rel s.rootURI (FPath.dir fr) = some fromPath ∧
      ((∀ u c, s.overlay u = some c → s.readURI u = some c) ∧
       (∀ pre c post, s.importCandidates (s.absToRel path) fromPath = pre ++ c :: post →
          (∀ c2 ∈ pre, s.readURI c2 = none) →
          ∀ d, s.readURI c = some d → s.readPath path fr = some (d, c)) ∧
       ((∀ c ∈ s.importCandidates (s.absToRel path) fromPath, s.readURI c = none) →
          s.readPath path fr = none)) := by
  have hda : (FPath.dir fr).abs = true := hfr
  obtain ⟨fromPath, hfp⟩ := rel_isSome_of_abs s.rootURI (FPath.dir fr) hroot hda
  refine ⟨fromPath, hfp, ?_, ?_, ?_⟩
  · intro u c h
    simp [Server.readURI, h]
  · intro pre c post hsplit hpre d hd
    unfold Server.readPath
    rw [hfp]
    show s.firstRead (s.importCandidates (s.absToRel path) fromPath) = some (d, c)
    rw [hsplit, firstRead_append_none s pre _ hpre, firstRead_cons_some s c post d hd]
  · intro hall
    unfold Server.readPath
    rw [hfp]
    show s.firstRead (s.importCandidates (s.absToRel path) fromPath) = none
    exact firstRead_none s _ hall

/-- Witness for C1, realizing the spec scenario: importing `lib.jsonnet`
from `/root/sub/main.jsonnet` when only `/root/sub/lib.jsonnet` exists
resolves to `/root/sub/lib.jsonnet`. -/
theorem readPath_candidate_order_witness :
    serverScenario.readPath ⟨false, ["lib.jsonnet"]⟩ ⟨true, ["root", "sub", "main.jsonnet"]⟩ =
      some ("sub-lib", ⟨true, ["root", "sub", "lib.jsonnet"]⟩) := by
  obtain ⟨fp, hfp, hov, hord, hnone⟩ :=
    readPath_candidate_order serverScenario ⟨false, ["lib.jsonnet"]⟩
      ⟨true, ["root", "sub", "main.jsonnet"]⟩ rfl rfl
  have hfpv : fp = ⟨false, ["sub"]⟩ := by
    have h2 : some fp = some (⟨false, ["sub"]⟩ : FPath) := by
      rw [← hfp]
      decide
    exact Option.some.inj h2
  subst hfpv
  exact hord [⟨true, ["root", "lib.jsonnet"]⟩] ⟨true, ["root", "sub", "lib.jsonnet"]⟩
    [⟨true, ["root", "vendor", "lib.jsonnet"]⟩] (by decide)
    (by
      intro c2 h
      rw [List.mem_singleton] at h
      subst h
      decide)
    "sub-lib" (by decide)

/-- Counterexample for C2: with the same filename present at the
workspace root, at the importing file's directory (two levels deep),
and in a configured search path, `readPath` returns the workspace-root
copy, not the importer's-directory copy the claim promises. -/
theorem readPath_shadow_counterexample :
    serverShadow.readPath ⟨false, ["lib.jsonnet"]⟩ ⟨true, ["root", "a", "b", "main.jsonnet"]⟩ =
        some ("at-root", ⟨true, ["root", "lib.jsonnet"]⟩) ∧
      serverShadow.readPath ⟨false, ["lib.jsonnet"]⟩ ⟨true, ["root", "a", "b", "main.jsonnet"]⟩ ≠
        some ("at-dir", ⟨true, ["root", "a", "b", "lib.jsonnet"]⟩) := by
  decide

/-- C2 (amended): when the import filename resolves at the workspace
root, that copy is returned even if copies exist at the importing
file's directory or in search paths; when absent at the root
the importer's-directory copy is returned; otherwise the configured search
paths are consulted in configuration order. -/
theorem readPath_fallback_order (s : Server) (path fr fromPath : FPath)
    (hfp : FPath.rel s.rootURI (FPath.dir fr) = some fromPath) :
    (∀ d, s.readURI (joinMany s.rootURI [s.absToRel path]) = some d →
        s.readPath path fr = some (d, joinMany s.rootURI [s.absToRel path])) ∧
    (s.readURI (joinMany s.rootURI [s.absToRel path]) = none →
      ∀ d, s.readURI (joinMany s.rootURI [fromPath, s.absToRel path]) = some d →
        s.readPath path fr = some (d, joinMany s.rootURI [fromPath, s.absToRel path])) ∧
    (s.readURI (joinMany s.rootURI [s.absToRel path]) = none →
      s.readURI (joinMany s.rootURI [fromPath, s.absToRel path]) = none →
      ∀ pre c post,
        s.searchPaths.map (fun sp => joinMany s.rootURI [sp, s.absToRel path]) =
          pre ++ c :: post →
        (∀ c2 ∈ pre, s.readURI c2 = none) →
        ∀ d, s.readURI c = some d → s.readPath path fr = some (d, c)) := by
  refine ⟨?_, ?_, ?_⟩
  · intro d hd
    unfold Server.readPath
    rw [hfp]
    show s.firstRead (s.importCandidates (s.absToRel path) fromPath) = _
    unfold Server.importCandidates
    rw [firstRead_cons_some s _ _ d hd]
  · intro h0 d hd
    unfold Server.readPath
    rw [hfp]
    show s.firstRead (s.importCandidates (s.absToRel path) fromPath) = _
    unfold Server.importCandidates
    rw [firstRead_cons_none s _ _ h0, firstRead_cons_some s _ _ d hd]
  · intro h0 h1 pre c post hsplit hpre d hd
    unfold Server.readPath
    rw [hfp]
    show s.firstRead (s.importCandidates (s.absToRel path) fromPath) = _
    unfold Server.importCandidates
    rw [firstRead_cons_none s _ _ h0, firstRead_cons_none s _ _ h1, hsplit,
      firstRead_append_none s pre _ hpre, firstRead_cons_some s c post d hd]

/-- Witness for the amended C2: with the workspace-root copy absent,
resolution falls back to the importer's-directory copy. -/
theorem readPath_fallback_order_witness :
    serverShadowNoRoot.readPath ⟨false, ["lib.jsonnet"]⟩
        ⟨true, ["root", "a", "b", "main.jsonnet"]⟩ =
      some ("at-dir", ⟨true, ["root", "a", "b", "lib.jsonnet"]⟩) := by
  have h := readPath_fallback_order serverShadowNoRoot ⟨false, ["lib.jsonnet"]⟩
      ⟨true, ["root", "a", "b", "main.jsonnet"]⟩ ⟨false, ["a", "b"]⟩ (by decide)
  have h2 := h.2.1 (by decide) "at-dir" (by decide)
  exact h2.trans (by decide)

/-- C3: `getVM` returns the cached VM exactly when the slot holds one
whose origin URI equals the requested URI; otherwise it replaces the
slot with a fresh VM bound to the requested URI whose importer cache is
empty, discarding the previous VM — the slot holds at most one VM, and
no import path cached under the previous origin is found in the fresh
cache without re-resolution. -/
theorem getVM_spec (slot : Option VMCache) (u : FPath) :
    (∀ c, slot = some c → c.from_ = u → getVM slot u = (c, some c)) ∧
    ((∀ c, slot = some c → c.from_ ≠ u) →
      getVM slot u = (⟨u, []⟩, some ⟨u, []⟩) ∧
        ∀ p, lookupCache (getVM slot u).1.cache p = none) := by
  constructor
  · intro c hc hfrom
    subst hc
    simp [getVM, hfrom]
  · intro hne
    match slot with
    | none => exact ⟨rfl, fun p => rfl⟩
    | some c =>
      have hder : ¬(u = c.from_) := fun h => hne c rfl h.symm
      refine ⟨by simp [getVM, hder], ?_⟩
      intro p
      simp [getVM, hder, lookupCache]

/-- Witness for C3: requesting the VM for URI B while the slot holds a
VM for URI A (with a nonempty importer cache) yields a fresh VM for B
with an empty cache, in which A's cached path is not found. -/
theorem getVM_spec_witness :
    getVM
        (some ⟨⟨true, ["root", "a.jsonnet"]⟩,
          [(⟨false, ["lib.jsonnet"]⟩, .found "x" ⟨true, ["root", "lib.jsonnet"]⟩)]⟩)
        ⟨true, ["root", "b.jsonnet"]⟩ =
      (⟨⟨true, ["root", "b.jsonnet"]⟩, []⟩, some ⟨⟨true, ["root", "b.jsonnet"]⟩, []⟩) ∧
    lookupCache
        (getVM
          (some ⟨⟨true, ["root", "a.jsonnet"]⟩,
            [(⟨false, ["lib.jsonnet"]⟩, .found "x" ⟨true, ["root", "lib.jsonnet"]⟩)]⟩)
          ⟨true, ["root", "b.jsonnet"]⟩).1.cache ⟨false, ["lib.jsonnet"]⟩ = none := by
  have h :=
    (getVM_spec
      (some ⟨⟨true, ["root", "a.jsonnet"]⟩,
        [(⟨false, ["lib.jsonnet"]⟩, .found "x" ⟨true, ["root", "lib.jsonnet"]⟩)]⟩)
      ⟨true, ["root", "b.jsonnet"]⟩).2
      (by
        intro c hc
        injection hc with h2
        subst h2
        decide)
  exact ⟨h.1, h.2 _⟩

/-- C4: a second call of the importer with the same path returns the
same outcome as the first call, performs no probe, and leaves the cache
unchanged (so all later calls behave identically); on a first-call
cache miss exactly one probe runs, a failure stores a negative entry
and a success stores a positive entry, keyed by the literal import
path. -/
theorem importStep_memo (s : Server) (fr : FPath)
    (cache : List (FPath × FoundCacheItem)) (p : FPath) :
    ((s.importStep fr (s.importStep fr cache p).2.1 p).1 = (s.importStep fr cache p).1 ∧
     (s.importStep fr (s.importStep fr cache p).2.1 p).2.1 = (s.importStep fr cache p).2.1 ∧
     (s.importStep fr (s.importStep fr cache p).2.1 p).2.2 = 0) ∧
    (lookupCache cache p = none →
      (s.importStep fr cache p).2.2 = 1 ∧
      ((s.importStep fr cache p).1 = none →
        lookupCache (s.importStep fr cache p).2.1 p = some .notFound) ∧
      (∀ d u, (s.importStep fr cache p).1 = some (d, u) →
        lookupCache (s.importStep fr cache p).2.1 p = some (.found d u))) := by
  unfold Server.importStep
  cases hl : lookupCache cache p with
  | some item =>
    cases item <;> simp [hl]
  | none =>
    cases hr : s.readPath p fr with
    | none => simp [hl, hr, lookupCache]
    | some du =>
      cases du with
      | mk d u => simp [hl, hr, lookupCache]

/-- Witness for C4: resolving a nonexistent import path through
one importer probes once, stores a negative entry, and the second call
probes zero times. -/
theorem importStep_memo_witness :
    (serverScenario.importStep ⟨true, ["root", "sub", "main.jsonnet"]⟩ []
        ⟨false, ["nope.jsonnet"]⟩).2.2 = 1 ∧
    lookupCache
        (serverScenario.importStep ⟨true, ["root", "sub", "main.jsonnet"]⟩ []
          ⟨false, ["nope.jsonnet"]⟩).2.1 ⟨false, ["nope.jsonnet"]⟩ = some .notFound ∧
    (serverScenario.importStep ⟨true, ["root", "sub", "main.jsonnet"]⟩
        (serverScenario.importStep ⟨true, ["root", "sub", "main.jsonnet"]⟩ []
          ⟨false, ["nope.jsonnet"]⟩).2.1
        ⟨false, ["nope.jsonnet"]⟩).2.2 = 0 := by
  have h := importStep_memo serverScenario ⟨true, ["root", "sub", "main.jsonnet"]⟩ []
      ⟨false, ["nope.jsonnet"]⟩
  exact ⟨(h.2 rfl).1, (h.2 rfl).2.1 (by decide), h.1.2.2⟩

/-- C5: when the direct parse yields a tree, recovery is never invoked
(the parser sees only the original text) and the stored tree and error
equal the direct parse results; when the direct parse yields no tree
and a last edit exists, the text is reparsed with a statement
terminator inserted immediately after the end of the last edit's
inserted text, then on failure with a field separator at the same
point, the first recovered tree being stored; the stored error is
always the original parse error, and when both attempts fail the
result has no tree, only that error. -/
theorem parseJsonnetFn_spec {Tree E : Type} (parse : String → Option Tree × Option E)
    (contents : String) (lastEdit : Option TextEdit) :
    ((parseJsonnetFn parse contents lastEdit).1.err = (parse contents).2) ∧
    (∀ t, (parse contents).1 = some t →
      parseJsonnetFn parse contents lastEdit =
        (⟨some t, (parse contents).2⟩, true, [contents])) ∧
    ((parse contents).1 = none → ∀ le, lastEdit = some le →
      ∀ ws, applyInsert contents (recoverInsertion le) ";" = some ws →
        ((∀ t, (parse ws).1 = some t →
            parseJsonnetFn parse contents lastEdit =
              (⟨some t, (parse contents).2⟩, true, [contents, ws])) ∧
         ((parse ws).1 = none →
            ∀ wc, applyInsert contents (recoverInsertion le) "," = some wc →
              parseJsonnetFn parse contents lastEdit =
                (⟨(parse wc).1, (parse contents).2⟩, (parse wc).1.isSome,
                  [contents, ws, wc])))) := by
  refine ⟨?_, ?_, ?_⟩
  · unfold parseJsonnetFn
    cases hd : (parse contents).1 with
    | some t => cases lastEdit <;> simp [hd]
    | none => cases lastEdit <;> simp [hd]
  · intro t ht
    unfold parseJsonnetFn
    cases lastEdit <;> simp [ht]
  · intro h0 le hle ws hws
    subst hle
    constructor
    · intro t ht
      unfold parseJsonnetFn tryRecoverAST
      simp [h0, hws, ht]
    · intro hn wc hwc
      unfold parseJsonnetFn tryRecoverAST
      simp [h0, hws, hn, hwc]

/-- Witness for C5: the toy parser rejects the text, recovery inserts a
semicolon after the last edit and the reparse succeeds; the stored
error remains the original one. -/
theorem parseJsonnetFn_spec_witness :
    parseJsonnetFn toyParse "ab" (some ⟨1, 2, "b"⟩) =
      (⟨some 3, some 0⟩, true, ["ab", "ab;"]) := by
  have h := (parseJsonnetFn_spec toyParse "ab" (some ⟨1, 2, "b"⟩)).2.2
      (by decide) ⟨1, 2, "b"⟩ rfl "ab;" (by decide)
  exact (h.1 3 (by decide)).trans (by decide)

theorem stackVarsFold_notin (l : List SNode) (x : String) (m : String → Option SNode)
    (h : ∀ n ∈ l, x ∉ n.introduced) :
    l.foldl (fun m n x => if x ∈ n.introduced then some n else m x) m x = m x := by
  induction l generalizing m with
  | nil => rfl
  | cons n rest ih =>
    rw [List.foldl_cons, ih _ (fun k hk => h k (List.mem_cons_of_mem n hk))]
    simp [h n (List.mem_cons_self n rest)]

/-- C6: for a query node whose cached ancestor stack contains an inner
node introducing `x`, with no later node reintroducing `x`, and an
outer node earlier in the stack also introducing `x`, the
visible-names map returned by `Vars` maps `x` to the inner binder: the
stack is folded outer-to-inner and the later entry overwrites the
earlier one. -/
theorem vars_shadowing (stackAtNode : SNode → SNode → List SNode) (r : ValueResolver)
    (fr root : SNode) (pre post : List SNode) (inner outer : SNode) (x : String)
    (hroot : lookupStr r.roots fr.fileName = some root)
    (hstk : lookupNat r.stackCache fr.id = some (pre ++ inner :: post))
    (_houter : outer ∈ pre) (_hox : x ∈ outer.introduced) (hix : x ∈ inner.introduced)
    (hpost : ∀ n ∈ post, x ∉ n.introduced) :
    ∃ m, ValueResolver.Vars stackAtNode r fr = some m ∧ m x = some inner := by
  refine ⟨StackVars (pre ++ inner :: post), ?_, ?_⟩
  · simp only [ValueResolver.Vars, hroot, hstk]
    rw [if_pos (by simp)]
  · unfold StackVars
    rw [show pre ++ inner :: post = (pre ++ [inner]) ++ post by simp, List.foldl_append,
      stackVarsFold_notin post x _ hpost, List.foldl_append]
    simp [hix]

/-- Witness for C6: a stack with an outer and an inner binder of `x`
resolves `x` to the inner binder. -/
theorem vars_shadowing_witness :
    Option.map (fun m => m "x")
        (ValueResolver.Vars (fun _ _ => [])
          ⟨[("f.jsonnet", ⟨0, "f.jsonnet", []⟩)],
            [(5, [⟨1, "f.jsonnet", ["x"]⟩, ⟨2, "f.jsonnet", ["x"]⟩])]⟩
          ⟨5, "f.jsonnet", []⟩) =
      some (some ⟨2, "f.jsonnet", ["x"]⟩) := by
  obtain ⟨m, hm, hmx⟩ := vars_shadowing (fun _ _ => [])
    ⟨[("f.jsonnet", ⟨0, "f.jsonnet", []⟩)],
      [(5, [⟨1, "f.jsonnet", ["x"]⟩, ⟨2, "f.jsonnet", ["x"]⟩])]⟩
    ⟨5, "f.jsonnet", []⟩ ⟨0, "f.jsonnet", []⟩
    [⟨1, "f.jsonnet", ["x"]⟩] [] ⟨2, "f.jsonnet", ["x"]⟩ ⟨1, "f.jsonnet", ["x"]⟩ "x"
    (by decide) (by decide) (by decide) (by decide) (by decide) (by decide)
  rw [hm]
  simp [hmx]

theorem vars_isSome_of_root (stackAtNode : SNode → SNode → List SNode) (r : ValueResolver)
    (fr ro : SNode) (hl : lookupStr r.roots fr.fileName = some ro) :
    ∃ m, ValueResolver.Vars stackAtNode r fr = some m := by
  simp only [ValueResolver.Vars, hl]
  cases hl2 : lookupNat r.stackCache fr.id with
  | none => exact ⟨_, rfl⟩
  | some stk =>
    refine ⟨if stk.length > 0 then StackVars stk else StackVars (stackAtNode ro fr), ?_⟩
    show (if stk.length > 0 then some (StackVars stk)
        else some (StackVars (stackAtNode ro fr))) =
      some (if stk.length > 0 then StackVars stk else StackVars (stackAtNode ro fr))
    by_cases hlen : stk.length > 0
    · rw [if_pos hlen, if_pos hlen]
    · rw [if_neg hlen, if_neg hlen]

/-- C9: `Vars` panics (modelled as `none`) exactly when no tree root
is registered in the session's filename-to-root map under the node's
source file name; when such a root is registered — in particular one
recorded by a previous successful `Import` — `Vars` returns a
visible-names map without failing. -/
theorem vars_panic_iff (stackAtNode : SNode → SNode → List SNode) (r : ValueResolver)
    (fr : SNode) :
    (ValueResolver.Vars stackAtNode r fr = none ↔
      lookupStr r.roots fr.fileName = none) ∧
    (∀ importAST p root, importAST p = some root → ∀ n : SNode,
      n.fileName = root.fileName →
      ∃ m, ValueResolver.Vars stackAtNode
          (ValueResolver.importRoot importAST r p).2 n = some m) := by
  constructor
  · cases hl : lookupStr r.roots fr.fileName with
    | none =>
      constructor
      · intro _; rfl
      · intro _
        simp [ValueResolver.Vars, hl]
    | some ro =>
      obtain ⟨m, hm⟩ := vars_isSome_of_root stackAtNode r fr ro hl
      constructor
      · intro h
        rw [hm] at h
        exact Option.noConfusion h
      · intro h
        exact Option.noConfusion h
  · intro importAST p root himp n hn
    have hl : lookupStr (ValueResolver.importRoot importAST r p).2.roots n.fileName =
        some root := by
      simp only [ValueResolver.importRoot, himp]
      simp [lookupStr, hn]
    exact vars_isSome_of_root stackAtNode _ n root hl

/-- Witness for C9: a session with no registered roots panics on a
query node; after a successful import of that node's file, the query
succeeds. -/
theorem vars_panic_iff_witness :
    ValueResolver.Vars (fun _ _ => []) ⟨[], []⟩ ⟨0, "g.jsonnet", []⟩ = none ∧
    (ValueResolver.Vars (fun _ _ => [])
        (ValueResolver.importRoot (fun _ => some ⟨0, "g.jsonnet", ["y"]⟩) ⟨[], []⟩
          ⟨false, ["g.jsonnet"]⟩).2
        ⟨1, "g.jsonnet", []⟩).isSome = true := by
  have h := vars_panic_iff (fun _ _ => []) ⟨[], []⟩ ⟨0, "g.jsonnet", []⟩
  refine ⟨h.1.mpr rfl, ?_⟩
  obtain ⟨m, hm⟩ := (vars_panic_iff (fun _ _ => []) ⟨[], []⟩ ⟨0, "g.jsonnet", []⟩).2
    (fun _ => some ⟨0, "g.jsonnet", ["y"]⟩) ⟨false, ["g.jsonnet"]⟩
    ⟨0, "g.jsonnet", ["y"]⟩ rfl ⟨1, "g.jsonnet", []⟩ rfl
  rw [hm]
  rfl

/-- C7: a located static error produces a diagnostic (at the given
severity) exactly when its file name equals the collector's document
file name; a runtime error always produces a diagnostic at error
severity placed at the first location of its stack trace, regardless
of file; any other error shape leaves the collector unchanged. -/
theorem collect_spec (e : ErrCollector) (sev : Nat) :
    (∀ loc msg,
      (e.collect (.staticErr loc msg) sev).diags =
        e.diags ++ (if loc.fileName = e.uri
          then [⟨sev, rangeToProto loc, msg, "jsonnet"⟩] else []) ∧
      (e.collect (.staticErr loc msg) sev).uri = e.uri) ∧
    (∀ stackHead stackRest msg,
      e.collect (.runtimeErr stackHead stackRest msg) sev =
        ⟨e.uri, e.diags ++ [⟨severityError, rangeToProto stackHead, msg, "jsonnet"⟩]⟩) ∧
    (∀ msg, e.collect (.otherErr msg) sev = e) := by
  refine ⟨?_, ?_, ?_⟩
  · intro loc msg
    by_cases h : loc.fileName = e.uri <;> simp [ErrCollector.collect, h]
  · intro stackHead stackRest msg
    rfl
  · intro msg
    rfl

/-- C8: on a document update with a current snapshot: a static parse
error is collected at error severity and linting is skipped; linting
runs exactly when there is no static parse error and the parsed
snapshot's version equals the current version, its reports collected
through `Format` at warning severity (runtime failures at error
severity by `collect`); in every such update a full diagnostics set,
possibly empty, is published for the document at the current
version. -/
theorem processFileUpdate_spec {Tree : Type} (uriName : String)
    (lint : String → List LintError) (ur : UpdateResult Tree) (cur : Snapshot Tree)
    (hcur : ur.current = some cur) :
    (∀ se, staticErrOf cur.data = some se →
      processFileUpdate uriName lint ur =
        some (uriName, cur.version,
          (ErrCollector.collect ⟨uriName, []⟩ se severityError).diags)) ∧
    (staticErrOf cur.data = none →
      ((∀ ps, ur.parsed = some ps → cur.version = ps.version →
          processFileUpdate uriName lint ur =
            some (uriName, cur.version,
              ((lint ps.contents).foldl (fun (acc : ErrCollector) e => acc.format e)
                ⟨uriName, []⟩).diags)) ∧
       (∀ ps, ur.parsed = some ps → cur.version ≠ ps.version →
          processFileUpdate uriName lint ur = some (uriName, cur.version, [])) ∧
       (ur.parsed = none →
          processFileUpdate uriName lint ur = some (uriName, cur.version, [])))) ∧
    (∃ ds, processFileUpdate uriName lint ur = some (uriName, cur.version, ds)) := by
  refine ⟨?_, ?_, ?_⟩
  · intro se hse
    simp [processFileUpdate, hcur, hse]
  · intro hnone
    refine ⟨?_, ?_, ?_⟩
    · intro ps hps hver
      simp [processFileUpdate, hcur, hnone, hps, hver]
    · intro ps hps hver
      simp [processFileUpdate, hcur, hnone, hps, hver]
    · intro hps
      simp [processFileUpdate, hcur, hnone, hps]
  · cases hse : staticErrOf cur.data with
    | some se =>
      exact ⟨(ErrCollector.collect ⟨uriName, []⟩ se severityError).diags,
        by simp [processFileUpdate, hcur, hse]⟩
    | none =>
      cases hps : ur.parsed with
      | none => exact ⟨[], by simp [processFileUpdate, hcur, hse, hps]⟩
      | some ps =>
        by_cases hver : cur.version = ps.version
        · exact ⟨((lint ps.contents).foldl (fun (acc : ErrCollector) e => acc.format e)
              ⟨uriName, []⟩).diags,
            by simp [processFileUpdate, hcur, hse, hps, hver]⟩
        · exact ⟨[], by simp [processFileUpdate, hcur, hse, hps, hver]⟩

/-- Witness for C8: an update whose parse stored a static error
publishes exactly that error at error severity at the current version,
with lint findings absent. -/
theorem processFileUpdate_spec_witness :
    @processFileUpdate Nat "a.jsonnet"
        (fun _ => [LintError.otherErr "ignored"])
        ⟨some ⟨3, "x;",
            some ⟨some 2,
              some (LintError.staticErr ⟨"a.jsonnet", ⟨1, 1⟩, ⟨1, 2⟩⟩ "boom")⟩⟩,
          some ⟨3, "x;", some ⟨some 2, none⟩⟩⟩ =
      some ("a.jsonnet", 3,
        [⟨severityError, rangeToProto ⟨"a.jsonnet", ⟨1, 1⟩, ⟨1, 2⟩⟩, "boom",
          "jsonnet"⟩]) := by
  have h := (@processFileUpdate_spec Nat "a.jsonnet"
      (fun _ => [LintError.otherErr "ignored"])
      ⟨some ⟨3, "x;",
          some ⟨some 2,
            some (LintError.staticErr ⟨"a.jsonnet", ⟨1, 1⟩, ⟨1, 2⟩⟩ "boom")⟩⟩,
        some ⟨3, "x;", some ⟨some 2, none⟩⟩⟩ _ rfl).1
      (LintError.staticErr ⟨"a.jsonnet", ⟨1, 1⟩, ⟨1, 2⟩⟩ "boom") rfl
  exact h.trans (by decide)

/-- C10: `posToProto` decrements the 1-based line and column only when
they are positive, so a zero line or column maps to 0 without
underflow; the converters are mutually inverse on their valid ranges:
a location whose line and column lie between 1 and 2^32 round-trips
through `posToProto` then `protoToPos`, and an editor position within
the uint32 range round-trips through `protoToPos` then `posToProto`. -/
theorem posToProto_protoToPos_inverse :
    (∀ p : Location, p.line = 0 → (posToProto p).line = 0) ∧
    (∀ p : Location, p.column = 0 → (posToProto p).character = 0) ∧
    (∀ p : Location, 1 ≤ p.line → p.line ≤ 4294967296 → 1 ≤ p.column →
      p.column ≤ 4294967296 → protoToPos (posToProto p) = p) ∧
    (∀ q : Position, q.line < 4294967296 → q.character < 4294967296 →
      posToProto (protoToPos q) = q) := by
  refine ⟨?_, ?_, ?_, ?_⟩
  · intro p h
    simp [posToProto, h]
  · intro p h
    simp [posToProto, h]
  · intro p h1 h2 h3 h4
    obtain ⟨l, c⟩ := p
    simp only at h1 h2 h3 h4
    simp only [posToProto, protoToPos, Location.mk.injEq]
    rw [if_pos (by omega), if_pos (by omega)]
    constructor <;> omega
  · intro q h1 h2
    obtain ⟨ql, qc⟩ := q
    simp only at h1 h2
    simp only [posToProto, protoToPos, Position.mk.injEq]
    rw [if_pos (by omega), if_pos (by omega)]
    constructor <;> omega

/-- Witness for C10: the location (5, 7) and the editor position
(4, 6) both round-trip. -/
theorem posToProto_protoToPos_inverse_witness :
    protoToPos (posToProto ⟨5, 7⟩) = (⟨5, 7⟩ : Location) ∧
      posToProto (protoToPos ⟨4, 6⟩) = (⟨4, 6⟩ : Position) :=
  ⟨posToProto_protoToPos_inverse.2.2.1 ⟨5, 7⟩ (by decide) (by decide) (by decide)
      (by decide),
    posToProto_protoToPos_inverse.2.2.2 ⟨4, 6⟩ (by decide) (by decide)⟩

end JsonnetLsp
